import Mathlib

/-!
# Verification of the distributed HEC-RAS execution subsystem

A shallow embedding, in Lean 4, of the parts of the `hecras_runner`
package relevant to the specified behaviour of its completion monitor
(`monitor.py`), job queue (`db.py`), file-transfer helpers
(`transfer.py`) and CLI process supervisor (`runner.py`), together
with theorems about the embedded definitions.

Modelling conventions:

* Files are lists of byte values (`List Nat`, each `< 256` in practice;
  none of the theorems need the bound).
* The filesystem surrounding a single path is a `FsEntry`: the path
  either does not name an existing regular file, names one that cannot
  be opened (`open` raises `OSError`), or names a readable one.
* Python exceptions that can escape a function are modelled with
  `Except`; exceptions that the source catches locally are resolved
  inside the definition, so a function that can never raise has a plain
  return type.
* `h5py` is an optional dependency (`monitor.py` opens with
  "Zero hard deps - h5py is optional (falls back to binary scan)").
  The structured-reader attempt of `verify_hdf_completion` is modelled
  in the environment where the import raises, so control always falls
  through to the binary chunk scan that the source implements itself.
* Python `float` arithmetic in `compute_progress` is modelled with
  exact rationals; the timestamps and wall-clock values the queue
  writes (`now()`) are opaque `Nat` parameters.
-/

namespace HecrasRunner

/-! ## Character helpers (ASCII fragment of the Python string methods) -/

/-- Python `str.lower`, on the ASCII range used by HEC-RAS file names. -/
def pyLowerChar (c : Char) : Char :=
  if 65 ≤ c.toNat ∧ c.toNat ≤ 90 then Char.ofNat (c.toNat + 32) else c

/-- Python `str.upper`, on the ASCII range used by HEC-RAS month tags. -/
def pyUpperChar (c : Char) : Char :=
  if 97 ≤ c.toNat ∧ c.toNat ≤ 122 then Char.ofNat (c.toNat - 32) else c

/-- Python `str.lower` lifted to strings. -/
def lowerString (s : String) : String := String.mk (s.data.map pyLowerChar)

/-- Python `str.upper` lifted to a list of characters. -/
def upperString (cs : List Char) : String := String.mk (cs.map pyUpperChar)

/-- The regex class `\d`. -/
def isDigitChar (c : Char) : Bool := 48 ≤ c.toNat && c.toNat ≤ 57

/-- The regex class `\w` (ASCII fragment: letters, digits, underscore). -/
def isWordChar (c : Char) : Bool :=
  isDigitChar c || (65 ≤ c.toNat && c.toNat ≤ 90) ||
    (97 ≤ c.toNat && c.toNat ≤ 122) || c == '_'

/-- The regex class `\s` (ASCII fragment: space, tab, newline, CR, VT, FF). -/
def isSpaceChar (c : Char) : Bool :=
  c == ' ' || c == '\t' || c == '\n' || c == '\r' ||
    c.toNat == 11 || c.toNat == 12

/-- Python `str.endswith`: the suffix occupies the final characters. -/
def pyEndsWith (s suf : String) : Bool :=
  suf.data == s.data.drop (s.data.length - suf.data.length)

/-- Python `int` on a string of decimal digits (all uses below come from
`\d`-matched regex groups, so the digits-only case is the one exercised). -/
def pyIntNat (cs : List Char) : Nat :=
  cs.foldl (fun a c => a * 10 + (c.toNat - 48)) 0

/-- UTF-8 bytes of an ASCII string, as numbers. -/
def asciiBytes (s : String) : List Nat := s.data.map Char.toNat

/-! ## `monitor.py` - binary completion scan

`verify_hdf_completion` checks a `.p##.hdf` output file for one of two
success markers.  The structured (`h5py`) attempt raises in the modelled
environment (optional dependency absent), so the function is the
`os.path.isfile` guard followed by the raw chunked byte scan:

```
chunk_size = 1024 * 1024
overlap = max(len(m) for m in markers) - 1
while True:
    chunk = f.read(chunk_size)
    if not chunk: break
    if any(m in chunk for m in markers): return True
    if len(chunk) == chunk_size: f.seek(f.tell() - overlap)
```
-/

/-- The two success markers of `verify_hdf_completion`, as byte strings. -/
def successMarkers : List (List Nat) :=
  [asciiBytes ("Finished Successfully"), asciiBytes ("Completed Successfully")]

/-- Occurrence test `(s.drop i).take pat.length == pat`: `pat` occurs in `s` at offset `i`. -/
def subAt (s pat : List Nat) (i : Nat) : Bool :=
  (s.drop i).take pat.length == pat

/-- Python `pat in s` for byte strings: substring containment. -/
def pyIn (pat s : List Nat) : Bool :=
  (List.range (s.length + 1)).any (fun i => subAt s pat i)

/-- The read size `1024 * 1024` of the binary fallback scan. -/
def scanChunkSize : Nat := 1024 * 1024

/-- The seek-back overlap window, `max(len(m) for m in markers) - 1`. -/
def scanOverlap : Nat := ((successMarkers.map List.length).foldl max 0) - 1

/-- The `while True` read loop of the binary fallback scan of
`verify_hdf_completion`, reading from byte offset `pos`. A full chunk
moves the file position back by `scanOverlap` before the next read. -/
def scanLoop (bytes : List Nat) (pos : Nat) : Bool :=
  if ((bytes.drop pos).take scanChunkSize).length = 0 then false
  else if successMarkers.any (fun m => pyIn m ((bytes.drop pos).take scanChunkSize)) then
    true
  else if ((bytes.drop pos).take scanChunkSize).length = scanChunkSize then
    scanLoop bytes (pos + scanChunkSize - scanOverlap)
  else false
termination_by bytes.length - pos
decreasing_by
  rename_i h0 _ h
  simp only [List.length_take, List.length_drop] at h0 h
  have hcs : scanChunkSize = 1048576 := rfl
  have hov : scanOverlap = 21 := rfl
  omega

/-- What the monitored path names: nothing that `os.path.isfile` accepts,
a regular file that `open` cannot read (raises `OSError`), or a readable
regular file with the given bytes. -/
inductive FsEntry
  | missing
  | locked
  | readable (bytes : List Nat)

/-- Models `os.path.isfile`. -/
def FsEntry.isRegularFile : FsEntry → Bool
  | .missing => false
  | .locked => true
  | .readable _ => true

/-- The source function `verify_hdf_completion(hdf_path)` (monitor.py).  `isfile` guard, then
(h5py attempt raises, caught by `except Exception`) the binary scan; an
`OSError` from `open` is caught and yields `False`. Total: every exception
the body can raise is handled inside. -/
def verify_hdf_completion : FsEntry → Bool
  | .missing => false
  | .locked => false
  | .readable bytes => scanLoop bytes 0

/-! ## `monitor.py` - datetime parsing and progress

`_parse_hecras_datetime` recognises two formats by regex `search`:

* `.bco`:  `(\d{2})(\w{3})(\d{4})\s+(\d{2}):(\d{2}):(\d{2})`
* plan:    `(\d{2})(\w{3})(\d{4}),(\d{4})`

Both patterns are sequences of fixed-width character classes except for
the `\s+` of the first, and the character after the whitespace run must
be a digit (never whitespace), so the greedy run is exactly the maximal
one; `search` takes the leftmost position where a match starts.  The
matchers below implement exactly that.

Python's `datetime` raises `ValueError` for out-of-range components
(`MINYEAR = 1`, `MAXYEAR = 9999`) and `datetime + timedelta(days=1)`
raises `OverflowError` past `9999-12-31`; both are modelled in `Except`.
-/

/-- Capture groups of the `.bco` regex `_BCO_DT_RE`. -/
structure BcoGroups where
  day : List Char
  mon : List Char
  year : List Char
  hour : List Char
  minute : List Char
  second : List Char

/-- Capture groups of the plan-file regex `_PLAN_DT_RE`. -/
structure PlanGroups where
  day : List Char
  mon : List Char
  year : List Char
  hhmm : List Char

/-- Match `_BCO_DT_RE` at the start of the given character list. -/
def matchBco : List Char → Option BcoGroups
  | d1 :: d2 :: w1 :: w2 :: w3 :: y1 :: y2 :: y3 :: y4 :: rest =>
    if isDigitChar d1 && isDigitChar d2 && isWordChar w1 && isWordChar w2 &&
        isWordChar w3 && isDigitChar y1 && isDigitChar y2 && isDigitChar y3 &&
        isDigitChar y4 then
      match rest.takeWhile isSpaceChar, rest.dropWhile isSpaceChar with
      | [], _ => none
      | _ :: _, h1 :: h2 :: c1 :: mi1 :: mi2 :: c2 :: s1 :: s2 :: _ =>
        if isDigitChar h1 && isDigitChar h2 && c1 == ':' && isDigitChar mi1 &&
            isDigitChar mi2 && c2 == ':' && isDigitChar s1 && isDigitChar s2 then
          some ⟨[d1, d2], [w1, w2, w3], [y1, y2, y3, y4], [h1, h2],
            [mi1, mi2], [s1, s2]⟩
        else none
      | _ :: _, _ => none
    else none
  | _ => none

/-- Match `_PLAN_DT_RE` at the start of the given character list. -/
def matchPlan : List Char → Option PlanGroups
  | d1 :: d2 :: w1 :: w2 :: w3 :: y1 :: y2 :: y3 :: y4 :: c :: t1 :: t2 :: t3 :: t4 :: _ =>
    if isDigitChar d1 && isDigitChar d2 && isWordChar w1 && isWordChar w2 &&
        isWordChar w3 && isDigitChar y1 && isDigitChar y2 && isDigitChar y3 &&
        isDigitChar y4 && c == ',' && isDigitChar t1 && isDigitChar t2 &&
        isDigitChar t3 && isDigitChar t4 then
      some ⟨[d1, d2], [w1, w2, w3], [y1, y2, y3, y4], [t1, t2, t3, t4]⟩
    else none
  | _ => none

/-- Model of `re.search`: try the matcher at each start position, leftmost first. -/
def searchList {α : Type} (f : List Char → Option α) : List Char → Option α
  | [] => f []
  | c :: t =>
    match f (c :: t) with
    | some r => some r
    | none => searchList f t

/-- Exceptions `datetime` arithmetic can raise. -/
inductive PyError
  | valueError
  | overflowError
deriving DecidableEq

/-- A `datetime.datetime` value (naive, second precision as in the source). -/
structure PyDateTime where
  year : Nat
  month : Nat
  day : Nat
  hour : Nat
  minute : Nat
  second : Nat
deriving DecidableEq

/-- Gregorian leap year, as `calendar.isleap` / `datetime` use it. -/
def isLeapYear (y : Nat) : Prop := (y % 4 = 0 ∧ y % 100 ≠ 0) ∨ y % 400 = 0

instance (y : Nat) : Decidable (isLeapYear y) := by unfold isLeapYear; infer_instance

/-- Days in a month of a given year. -/
def daysInMonth (y m : Nat) : Nat :=
  if m = 2 then (if isLeapYear y then 29 else 28)
  else if m = 4 ∨ m = 6 ∨ m = 9 ∨ m = 11 then 30
  else 31

/-- The `datetime(...)` constructor: `ValueError` outside the documented
ranges (`MINYEAR = 1`, `MAXYEAR = 9999`). -/
def mkPyDateTime (y mo d h mi s : Nat) : Except PyError PyDateTime :=
  if 1 ≤ y ∧ y ≤ 9999 ∧ 1 ≤ mo ∧ mo ≤ 12 ∧ 1 ≤ d ∧ d ≤ daysInMonth y mo ∧
      h ≤ 23 ∧ mi ≤ 59 ∧ s ≤ 59 then
    .ok ⟨y, mo, d, h, mi, s⟩
  else .error .valueError

/-- Computes `dt + timedelta(days=1)`: `OverflowError` past `datetime.max`. -/
def addOneDay (dt : PyDateTime) : Except PyError PyDateTime :=
  if dt.year = 9999 ∧ dt.month = 12 ∧ dt.day = 31 then .error .overflowError
  else if dt.day < daysInMonth dt.year dt.month then
    .ok { dt with day := dt.day + 1 }
  else if dt.month < 12 then .ok { dt with month := dt.month + 1, day := 1 }
  else .ok { dt with year := dt.year + 1, month := 1, day := 1 }

/-- The `_MONTH_MAP` of monitor.py, as the association list `dict.get` reads. -/
def monthPairs : List (String × Nat) :=
  [("JAN", 1), ("FEB", 2), ("MAR", 3), ("APR", 4), ("MAY", 5), ("JUN", 6),
   ("JUL", 7), ("AUG", 8), ("SEP", 9), ("OCT", 10), ("NOV", 11), ("DEC", 12)]

/-- Lookup `_MONTH_MAP.get(key)`. -/
def monthLookup (s : String) : Option Nat := monthPairs.lookup s

/-- Body of `_parse_hecras_datetime` on a character list: empty-string guard, the
`.bco` regex first, then the plan regex; the `2400` convention maps to
midnight of the next day via `timedelta(days=1)`.  `Except.error` is a
`ValueError`/`OverflowError` escaping to the caller; `.ok none` is the
function returning `None`. -/
def parse_hecras_datetime_chars (s : List Char) : Except PyError (Option PyDateTime) :=
  if s.isEmpty then .ok none
  else
    match searchList matchBco s with
    | some g =>
      match monthLookup (upperString g.mon) with
      | none => .ok none
      | some mo =>
        let d := pyIntNat g.day
        let y := pyIntNat g.year
        let h := pyIntNat g.hour
        let mi := pyIntNat g.minute
        let sec := pyIntNat g.second
        if h = 24 then do
          let dt ← mkPyDateTime y mo d 0 0 sec
          let dt2 ← addOneDay dt
          .ok (some dt2)
        else do
          let dt ← mkPyDateTime y mo d h mi sec
          .ok (some dt)
    | none =>
      match searchList matchPlan s with
      | some g =>
        match monthLookup (upperString g.mon) with
        | none => .ok none
        | some mo =>
          let d := pyIntNat g.day
          let y := pyIntNat g.year
          let h := pyIntNat (g.hhmm.take 2)
          let mi := pyIntNat (g.hhmm.drop 2)
          if h = 24 then do
            let dt ← mkPyDateTime y mo d 0 0 0
            let dt2 ← addOneDay dt
            .ok (some dt2)
          else do
            let dt ← mkPyDateTime y mo d h mi 0
            .ok (some dt)
      | none => .ok none

/-- The source function `_parse_hecras_datetime(s)` (monitor.py; its name carries a leading
underscore). -/
def parse_hecras_datetime (s : String) : Except PyError (Option PyDateTime) :=
  parse_hecras_datetime_chars s.data

/-- Python `date.toordinal()` (proleptic Gregorian day number), used to realise
`(a - b).total_seconds()` on second-precision datetimes. -/
def pyOrdinal (y m d : Nat) : Nat :=
  365 * (y - 1) + (y - 1) / 4 - (y - 1) / 100 + (y - 1) / 400 +
    ((List.range (m - 1)).foldl (fun a k => a + daysInMonth y (k + 1)) 0) + d

/-- Seconds of a datetime from the epoch of `toordinal`. -/
def totalSecondsOf (dt : PyDateTime) : Int :=
  (pyOrdinal dt.year dt.month dt.day : Int) * 86400 + dt.hour * 3600 +
    dt.minute * 60 + dt.second

/-- The source function `compute_progress(current_ts, start_ts, end_ts)` (monitor.py): parse
all three, return `0.0` if any is `None` or the range is non-positive,
else the clamped elapsed fraction.  A `ValueError`/`OverflowError` from a
parse escapes (nothing in the source catches it). -/
def compute_progress (current_ts start_ts end_ts : String) : Except PyError Rat := do
  let current ← parse_hecras_datetime current_ts
  let start ← parse_hecras_datetime start_ts
  let stop ← parse_hecras_datetime end_ts
  match current, start, stop with
  | some cdt, some sdt, some edt =>
    let total : Int := totalSecondsOf edt - totalSecondsOf sdt
    if total ≤ 0 then .ok 0
    else
      let elapsed : Int := totalSecondsOf cdt - totalSecondsOf sdt
      .ok (max 0 (min 1 ((elapsed : Rat) / (total : Rat))))
  | _, _, _ => .ok 0

/-! ## `transfer.py` - result file matching and terrain hashing -/

/-- The `_RESULT_EXTENSIONS` tuple (transfer.py / file_ops.py). -/
def RESULT_EXTENSIONS : List String :=
  ["p", "u", "x", "g", "c", "b", "bco", "dss", "ic.o"]

/-- The source function `is_result_file(filename, plan_suffix)` (transfer.py): the lowercased
name ends with `.{ext}{suffix}` (pattern also lowercased) for one of the
result extensions, or with `.{ext}{suffix}.hdf` (pattern not lowercased
in the source) for one of the container extensions. -/
def is_result_file (filename plan_suffix : String) : Bool :=
  let lower := lowerString filename
  (RESULT_EXTENSIONS.any fun ext =>
    pyEndsWith lower (lowerString ("." ++ ext ++ plan_suffix))) ||
  (["p", "u", "g"].any fun ext =>
    pyEndsWith lower ("." ++ ext ++ plan_suffix ++ ".hdf"))

/-! ### SHA-256 (the `hashlib.sha256` the terrain hash feeds) -/

/-- Round constants of SHA-256 (FIPS 180-4, in decimal). -/
def sha256K : List Nat :=
  [1116352408, 1899447441, 3049323471, 3921009573, 961987163, 1508970993,
   2453635748, 2870763221, 3624381080, 310598401, 607225278, 1426881987,
   1925078388, 2162078206, 2614888103, 3248222580, 3835390401, 4022224774,
   264347078, 604807628, 770255983, 1249150122, 1555081692, 1996064986,
   2554220882, 2821834349, 2952996808, 3210313671, 3336571891, 3584528711,
   113926993, 338241895, 666307205, 773529912, 1294757372, 1396182291,
   1695183700, 1986661051, 2177026350, 2456956037, 2730485921, 2820302411,
   3259730800, 3345764771, 3516065817, 3600352804, 4094571909, 275423344,
   430227734, 506948616, 659060556, 883997877, 958139571, 1322822218,
   1537002063, 1747873779, 1955562222, 2024104815, 2227730452, 2361852424,
   2428436474, 2756734187, 3204031479, 3329325298]

/-- Initial hash state of SHA-256 (FIPS 180-4, in decimal). -/
def sha256H0 : List Nat :=
  [1779033703, 3144134277, 1013904242, 2773480762,
   1359893119, 2600822924, 528734635, 1541459225]

/-- Right rotation on 32-bit words. -/
def rotr32 (x n : Nat) : Nat := ((x >>> n) ||| (x <<< (32 - n))) % 4294967296

/-- Big-endian 8-byte encoding of the bit length. -/
def be64 (n : Nat) : List Nat :=
  [(n >>> 56) % 256, (n >>> 48) % 256, (n >>> 40) % 256, (n >>> 32) % 256,
   (n >>> 24) % 256, (n >>> 16) % 256, (n >>> 8) % 256, n % 256]

/-- SHA-256 message padding. -/
def sha256Pad (msg : List Nat) : List Nat :=
  msg ++ [128] ++ List.replicate ((64 - ((msg.length + 9) % 64)) % 64) 0 ++
    be64 (8 * msg.length)

/-- Big-endian 32-bit words of a 64-byte chunk. -/
def bytesToWords : List Nat → List Nat
  | b0 :: b1 :: b2 :: b3 :: rest =>
    (((b0 * 256 + b1) * 256 + b2) * 256 + b3) :: bytesToWords rest
  | _ => []

/-- The 64-word message schedule extended from the 16 chunk words. -/
def sha256Schedule (w16 : List Nat) : Array Nat :=
  (List.range 48).foldl
    (fun w _ =>
      let t := w.size
      let wa := fun i => w.getD i 0
      let s0 := rotr32 (wa (t - 15)) 7 ^^^ rotr32 (wa (t - 15)) 18 ^^^ (wa (t - 15) >>> 3)
      let s1 := rotr32 (wa (t - 2)) 17 ^^^ rotr32 (wa (t - 2)) 19 ^^^ (wa (t - 2) >>> 10)
      w.push ((wa (t - 16) + s0 + wa (t - 7) + s1) % 4294967296))
    w16.toArray

/-- One SHA-256 compression round over a 64-byte chunk. -/
def sha256Compress (h : List Nat) (chunk : List Nat) : List Nat :=
  let w := sha256Schedule (bytesToWords chunk)
  let ha := fun i => h.getD i 0
  let st := (List.range 64).foldl
    (fun (st : List Nat) t =>
      let a := st.getD 0 0
      let b := st.getD 1 0
      let c := st.getD 2 0
      let d := st.getD 3 0
      let e := st.getD 4 0
      let f := st.getD 5 0
      let g := st.getD 6 0
      let hh := st.getD 7 0
      let s1 := rotr32 e 6 ^^^ rotr32 e 11 ^^^ rotr32 e 25
      let ch := (e &&& f) ^^^ ((4294967295 - e) &&& g)
      let temp1 := (hh + s1 + ch + sha256K.getD t 0 + w.getD t 0) % 4294967296
      let s0 := rotr32 a 2 ^^^ rotr32 a 13 ^^^ rotr32 a 22
      let maj := (a &&& b) ^^^ (a &&& c) ^^^ (b &&& c)
      let temp2 := (s0 + maj) % 4294967296
      [(temp1 + temp2) % 4294967296, a, b, c, (d + temp1) % 4294967296, e, f, g])
    h
  (List.range 8).map (fun i => (ha i + st.getD i 0) % 4294967296)

/-- Fold the compression over all 64-byte chunks of the padded message. -/
def sha256Chunks (h : List Nat) : List Nat → List Nat
  | [] => h
  | b :: bs => sha256Chunks (sha256Compress h ((b :: bs).take 64)) ((b :: bs).drop 64)
termination_by bytes => bytes.length

/-- One lowercase hex digit, as `hexdigest` prints them. -/
def hexDigitChar (n : Nat) : Char :=
  match n with
  | 0 => '0' | 1 => '1' | 2 => '2' | 3 => '3' | 4 => '4'
  | 5 => '5' | 6 => '6' | 7 => '7' | 8 => '8' | 9 => '9'
  | 10 => 'a' | 11 => 'b' | 12 => 'c' | 13 => 'd' | 14 => 'e' | _ => 'f'

/-- Eight hex digits of a 32-bit word. -/
def wordToHex (w : Nat) : List Char :=
  (List.range 8).map (fun i => hexDigitChar ((w >>> (28 - 4 * i)) % 16))

/-- Computes `hashlib.sha256(msg).hexdigest()`. -/
def sha256Hex (msg : List Nat) : String :=
  String.mk ((sha256Chunks sha256H0 (sha256Pad msg)).foldr
    (fun w acc => wordToHex w ++ acc) [])

/-! ### `compute_terrain_hash`

The terrain directory is modelled as the list of files `os.walk` visits
(with `sorted(files)` inside each directory), each as its path relative
to the terrain directory paired with its bytes; a file whose
`getsize`/`open`/`read` raises `OSError` is skipped by the source
(`continue`) and is correspondingly absent from the list.  `none` models
a project with no `Terrain` directory, for which the source returns
`""`. -/

/-- The byte stream `compute_terrain_hash` feeds to `hashlib.sha256`:
per file, `f"{rel_path}:{size}:".encode()` then the first 4096 bytes. -/
def terrainHashInput (files : List (String × List Nat)) : List Nat :=
  files.foldr
    (fun f acc =>
      asciiBytes (f.1 ++ ":" ++ toString f.2.length ++ ":") ++ f.2.take 4096 ++ acc)
    []

/-- The source function `compute_terrain_hash(project_dir)` (transfer.py): empty string when
there is no `Terrain` directory, else the first 24 hex digits of the
SHA-256 of the per-file stream. -/
def compute_terrain_hash : Option (List (String × List Nat)) → String
  | none => ""
  | some files => (sha256Hex (terrainHashInput files)).take 24

/-! ## `runner.py` - CLI backend, normal-exit outcome -/

/-- The `SimulationResult` dataclass (runner.py); `files_copied` is attached later by
`run_simulations` and is not part of the completion decision. -/
structure SimulationResult where
  plan_name : String
  plan_suffix : String
  success : Bool
  elapsed_seconds : Rat
  error_message : Option String := none
deriving DecidableEq

/-- The tail of `run_hecras_cli` for a process that exited normally
(no launch failure, no `TimeoutExpired`), runner.py lines 382-410:
`success = verify_hdf_completion(hdf_path)` - the exit code is used only
inside the failure message - and the result records that verdict.
`returncode` is the process exit code, `hdfEntry` what the output
`.p##.hdf` path names after the run, `stderrText` the decoded stderr. -/
def run_hecras_cli_normal_exit (plan_name plan_suffix : String) (returncode : Int)
    (stderrText : String) (hdfEntry : FsEntry) (elapsed : Rat) : SimulationResult :=
  let success := verify_hdf_completion hdfEntry
  { plan_name := plan_name
    plan_suffix := plan_suffix
    success := success
    elapsed_seconds := elapsed
    error_message :=
      if success then none
      else some ("HDF completion check failed (exit code " ++ toString returncode ++ ")"
        ++ (if stderrText = ("") then ("") else (": ") ++ stderrText)) }

/-! ## `db.py` - job queue state

Rows of the `jobs`/`batches` tables, with statuses as the SQL string
literals the source writes.  Wall-clock columns (`now()`) take an opaque
`Nat` supplied by the caller of the embedded method.  Job and batch ids
are opaque unique keys; the `id` column type lives in `docs/db_schema.sql`
which is outside the sources, so per the specification (`claim_job`
"selects the oldest row", ids "opaque, globally unique") ids are modelled
as `Nat` assigned in insertion order: a row inserted earlier has a
smaller id, making `ORDER BY id ... LIMIT 1` the oldest queued row. -/

/-- One row of `hecras_runner.jobs`. -/
structure JobRow where
  id : Nat
  batch_id : Nat
  plan_name : String
  plan_suffix : String
  status : String
  worker_id : Option String := none
  assigned_at : Option Nat := none
  started_at : Option Nat := none
  completed_at : Option Nat := none
  elapsed_seconds : Option Rat := none
  error_message : Option String := none
  exit_code : Option Int := none
  hdf_verified : Option Bool := none
  progress : Option Rat := none
deriving DecidableEq

/-- One row of `hecras_runner.batches`. -/
structure BatchRow where
  id : Nat
  project_path : String
  project_title : String
  submitted_by : String
  total_jobs : Nat
  status : String
  completed_at : Option Nat := none
deriving DecidableEq

/-- The two tables the queue methods touch. -/
structure DbState where
  jobs : List JobRow
  batches : List BatchRow
deriving DecidableEq

/-- A job status is terminal when it is `completed` or `failed`
(`status NOT IN ('completed', 'failed')` counts the others). -/
def isTerminalStatus (s : String) : Bool := s == "completed" || s == "failed"

/-! ### `submit_batch` -/

/-- The storage-layer error (`psycopg.Error`) that a failed commit raises;
the spec's error taxonomy names it `StorageError`. -/
structure StorageError where
  msg : String
deriving DecidableEq

/-- SQL statements `submit_batch` issues, in order, as its trace. -/
inductive SqlStmt
  | insertBatch (project_path project_title submitted_by : String) (total_jobs : Nat)
  | insertJob (batch_id : Nat) (plan_name plan_suffix : String)
  | commitTx
deriving DecidableEq

/-- The source method `submit_batch(project_path, project_title, jobs, submitted_by)`
(db.py): inserts one batch row (`RETURNING id`, modelled by the
database-chosen `newBatchId`), one job row per entry of `jobs`
(each `(plan_name, plan_suffix)`), then commits once.  The method body
catches nothing, so the commit outcome is the method outcome: a failed
commit propagates its error to the caller unchanged.  The second
component is the ordered statement trace the method sends. -/
def submit_batch (newBatchId : Nat) (commitResult : Except StorageError Unit)
    (project_path project_title : String) (jobs : List (String × String))
    (submitted_by : String) : Except StorageError Nat × List SqlStmt :=
  (commitResult.map (fun _ => newBatchId),
    SqlStmt.insertBatch project_path project_title submitted_by jobs.length ::
      jobs.map (fun jb => SqlStmt.insertJob newBatchId jb.1 jb.2) ++ [SqlStmt.commitTx])

/-! ### `claim_job` -/

/-- The dictionary `claim_job` returns for a claimed row. -/
structure ClaimedJob where
  job_id : Nat
  batch_id : Nat
  plan_name : String
  plan_suffix : String
  project_path : String
deriving DecidableEq

/-- The smallest element of a list of ids (`ORDER BY id ... LIMIT 1`). -/
def minId? (l : List Nat) : Option Nat :=
  l.foldr (fun a acc => match acc with | none => some a | some b => some (min a b)) none

/-- The `batches.find?` lookup for `SELECT project_path FROM batches WHERE id = ...`,
with the source's `batch_row[0] if batch_row else ""` default. -/
def projectPathOf (batches : List BatchRow) (bid : Nat) : String :=
  match batches.find? (fun b => b.id == bid) with
  | some b => b.project_path
  | none => ""

/-- The source method `claim_job(worker_id)` (db.py): update the queued row of least id to
`assigned` with `worker_id` and `assigned_at = now()`, returning its
details (joined with the parent batch's `project_path`), or `None` when
no row has status `queued`. -/
def claim_job (st : DbState) (workerId : String) (now : Nat) :
    DbState × Option ClaimedJob :=
  match minId? ((st.jobs.filter (fun j => j.status == "queued")).map JobRow.id) with
  | none => (st, none)
  | some i =>
    let jobs2 := st.jobs.map fun j =>
      if j.id == i then
        { j with status := "assigned", worker_id := some workerId, assigned_at := some now }
      else j
    match st.jobs.find? (fun j => j.id == i) with
    | none => ({ st with jobs := jobs2 }, none)
    | some j =>
      ({ st with jobs := jobs2 },
        some ⟨i, j.batch_id, j.plan_name, j.plan_suffix, projectPathOf st.batches j.batch_id⟩)

/-! ### `complete_job` -/

/-- The row update of `complete_job`'s first statement: terminal status,
completion bookkeeping, and `progress = CASE WHEN success THEN 1.0 ELSE
progress END`. -/
def completeJobRowUpdate (success : Bool) (now : Nat) (elapsed : Rat)
    (err : Option String) (ec : Option Int) (hv : Option Bool) (j : JobRow) : JobRow :=
  { j with
    status := if success then ("completed") else ("failed")
    completed_at := some now
    elapsed_seconds := some elapsed
    error_message := err
    exit_code := ec
    hdf_verified := hv
    progress := if success then some 1 else j.progress }

/-- The `jobs` table after `complete_job`'s `UPDATE ... WHERE id = job_id`. -/
def completeJobJobs (jobs : List JobRow) (job_id : Nat) (success : Bool) (now : Nat)
    (elapsed : Rat) (err : Option String) (ec : Option Int) (hv : Option Bool) :
    List JobRow :=
  jobs.map fun j =>
    if j.id == job_id then completeJobRowUpdate success now elapsed err ec hv j else j

/-- The batch-status write `complete_job` performs after the job update,
evaluated against the updated `jobs` table: look up the job's batch
(`SELECT batch_id`), count its non-terminal jobs, and when none remain
decide `failed`/`completed` from the count of failed jobs.  `none` means
no `UPDATE batches` statement is issued. -/
def batchTerminalWrite (jobs2 : List JobRow) (job_id : Nat) : Option (Nat × String) :=
  match jobs2.find? (fun j => j.id == job_id) with
  | none => none
  | some j =>
    let b := j.batch_id
    if jobs2.countP (fun r => r.batch_id == b && !isTerminalStatus r.status) = 0 then
      some (b,
        if 0 < jobs2.countP (fun r => r.batch_id == b && r.status == "failed") then
          ("failed")
        else ("completed"))
    else none

/-- The source method `complete_job(job_id, success, elapsed_seconds, error_message,
exit_code, hdf_verified)` (db.py): mark the job terminal, then inside
the same transaction recompute the parent batch's aggregate status. -/
def complete_job (st : DbState) (job_id : Nat) (success : Bool) (now : Nat)
    (elapsed : Rat) (err : Option String) (ec : Option Int) (hv : Option Bool) :
    DbState :=
  let jobs2 := completeJobJobs st.jobs job_id success now elapsed err ec hv
  match batchTerminalWrite jobs2 job_id with
  | none => { st with jobs := jobs2 }
  | some (b, s) =>
    { jobs := jobs2
      batches := st.batches.map fun r =>
        if r.id == b then { r with status := s, completed_at := some now } else r }

/-! ## Statement-side definitions used by the claims -/

/-- The spec's reading of the result-file convention: the name ends -
matching case-insensitively, as Windows file names are compared - with
`.{ext}{S}` for an extension of the fixed set, or with `.{ext}{S}.hdf`
for one of the container extensions. -/
def spec_is_result_file (name S : String) : Prop :=
  (∃ ext ∈ RESULT_EXTENSIONS,
    pyEndsWith (lowerString name) (lowerString ("." ++ ext ++ S)) = true) ∨
  (∃ ext ∈ (["p", "u", "g"] : List String),
    pyEndsWith (lowerString name) (lowerString ("." ++ ext ++ S ++ ".hdf")) = true)

/-- The decimal digit character of `n % 10`. -/
def digitCharTable : Nat → Char
  | 0 => '0' | 1 => '1' | 2 => '2' | 3 => '3' | 4 => '4'
  | 5 => '5' | 6 => '6' | 7 => '7' | 8 => '8' | _ => '9'

/-- The character printed for digit `n % 10`. -/
def digitChar (n : Nat) : Char := digitCharTable (n % 10)

/-- Two-digit zero-padded decimal rendering (days, as `%02d`). -/
def pad2 (n : Nat) : List Char := [digitChar (n / 10), digitChar n]

/-- Four-digit zero-padded decimal rendering (years, as `%04d`). -/
def pad4 (n : Nat) : List Char :=
  [digitChar (n / 1000), digitChar (n / 100), digitChar (n / 10), digitChar n]

/-- The uppercase engine month tag of month `m`. -/
def monthAbbr : Nat → List Char
  | 1 => "JAN".data | 2 => "FEB".data | 3 => "MAR".data | 4 => "APR".data
  | 5 => "MAY".data | 6 => "JUN".data | 7 => "JUL".data | 8 => "AUG".data
  | 9 => "SEP".data | 10 => "OCT".data | 11 => "NOV".data | 12 => "DEC".data
  | _ => []

/-- The plan-file rendering of day `(y, m, d)` with time-of-day `2400`:
`ddMMMyyyy,2400`. -/
def planStr2400 (y m d : Nat) : String :=
  String.mk (pad2 d ++ monthAbbr m ++ pad4 y ++ ",2400".data)

/-- The `.bco` rendering of day `(y, m, d)` with time-of-day `2400`:
`ddMMMyyyy  24:00:00`. -/
def bcoStr2400 (y m d : Nat) : String :=
  String.mk (pad2 d ++ monthAbbr m ++ pad4 y ++ "  24:00:00".data)

/-- Midnight of the calendar day after `(y, m, d)`. -/
def nextMidnight (y m d : Nat) : PyDateTime :=
  if d < daysInMonth y m then ⟨y, m, d + 1, 0, 0, 0⟩
  else if m < 12 then ⟨y, m + 1, 1, 0, 0, 0⟩
  else ⟨y + 1, 1, 1, 0, 0, 0⟩

/-! ### Concrete rows and directories used by witnesses -/

/-- A completed job row used by the C1 witness. -/
def c1wJob1 : JobRow :=
  { id := 1, batch_id := 10, plan_name := "a", plan_suffix := "01",
    status := "completed" }

/-- A still-running job row used by the C1 witness. -/
def c1wJob2 : JobRow :=
  { id := 2, batch_id := 10, plan_name := "b", plan_suffix := "02",
    status := "running" }

/-- A queued job row of id 3 for the C4 witness. -/
def c4wA : JobRow :=
  { id := 3, batch_id := 10, plan_name := "a", plan_suffix := "01",
    status := "queued" }

/-- The oldest queued job row (id 1) for the C4 witness. -/
def c4wB : JobRow :=
  { id := 1, batch_id := 10, plan_name := "b", plan_suffix := "02",
    status := "queued" }

/-- The parent batch row for the C4 witness. -/
def c4wBatch : BatchRow :=
  { id := 10, project_path := "P:\\share\\proj.prj", project_title := "T",
    submitted_by := "u", total_jobs := 2, status := "pending" }

/-- The 4096-byte prefix of 4097-byte files for the C9 counterexample. -/
def c9base : List Nat := List.replicate 4096 0

/-- A one-file terrain directory whose file has byte `1` at offset 4096. -/
def c9dir1 : List (String × List Nat) := [("big.tif", c9base ++ [1])]

/-- The same directory with that one byte mutated to `2`. -/
def c9dir2 : List (String × List Nat) := [("big.tif", c9base ++ [2])]

/-! ## Lemmas about the binary completion scan -/

theorem subAt_eq_true_iff {s pat : List Nat} {i : Nat} :
    subAt s pat i = true ↔ (s.drop i).take pat.length = pat := by
  simp [subAt]

theorem pyIn_eq_true_iff {pat s : List Nat} :
    pyIn pat s = true ↔ ∃ i, i ≤ s.length ∧ (s.drop i).take pat.length = pat := by
  simp only [pyIn, List.any_eq_true, List.mem_range, subAt_eq_true_iff]
  constructor
  · rintro ⟨i, hi, h⟩
    exact ⟨i, by omega, h⟩
  · rintro ⟨i, hi, h⟩
    exact ⟨i, by omega, h⟩

/-- An occurrence of a nonempty pattern lies inside the string. -/
theorem occurrence_le_length {s pat : List Nat} {i : Nat} (hL : 1 ≤ pat.length)
    (h : (s.drop i).take pat.length = pat) : i + pat.length ≤ s.length := by
  have := congrArg List.length h
  simp [List.length_take, List.length_drop] at this
  omega

/-- Both success markers have length between 1 and `scanOverlap + 1`. -/
theorem marker_length_bounds {pat : List Nat} (hp : pat ∈ successMarkers) :
    1 ≤ pat.length ∧ pat.length ≤ 22 := by
  simp only [successMarkers, List.mem_cons, List.not_mem_nil, or_false] at hp
  rcases hp with h | h <;> subst h <;> decide

/-- Completeness of the chunked scan: an occurrence of a marker at or after
the current read position is found, whether it lies inside one chunk or
straddles a chunk boundary (the overlap re-read covers it). -/
theorem scanLoop_complete (bytes pat : List Nat) (hp : pat ∈ successMarkers)
    {i : Nat} (hsub : (bytes.drop i).take pat.length = pat) :
    ∀ pos, pos ≤ i → scanLoop bytes pos = true := by
  obtain ⟨hL1, hL22⟩ := marker_length_bounds hp
  have hiL : i + pat.length ≤ bytes.length := occurrence_le_length hL1 hsub
  have hcs : scanChunkSize = 1048576 := rfl
  have hov : scanOverlap = 21 := rfl
  have main : ∀ n pos, bytes.length - pos = n → pos ≤ i → scanLoop bytes pos = true := by
    intro n
    induction n using Nat.strong_induction_on with
    | _ n IH =>
      intro pos hn hpos
      have hchunklen : ((bytes.drop pos).take scanChunkSize).length =
          min scanChunkSize (bytes.length - pos) := by
        simp [List.length_take, List.length_drop]
      rw [scanLoop]
      have hne : ¬ ((bytes.drop pos).take scanChunkSize).length = 0 := by omega
      rw [if_neg hne]
      by_cases hfound :
          successMarkers.any (fun m => pyIn m ((bytes.drop pos).take scanChunkSize)) = true
      · rw [if_pos hfound]
      · -- the marker cannot fit inside this chunk, so the chunk is full
        -- and the occurrence is still at or after the next read position
        have hnotin : ¬ (i + pat.length ≤ pos + ((bytes.drop pos).take scanChunkSize).length) := by
          intro hfit
          apply hfound
          rw [List.any_eq_true]
          refine ⟨pat, hp, ?_⟩
          rw [pyIn_eq_true_iff]
          refine ⟨i - pos, by omega, ?_⟩
          rw [List.drop_take, List.drop_drop, List.take_take]
          have hip : pos + (i - pos) = i := by omega
          rw [hip]
          have hmin : min pat.length (scanChunkSize - (i - pos)) = pat.length := by omega
          rw [hmin, hsub]
        have hfull : ((bytes.drop pos).take scanChunkSize).length = scanChunkSize := by
          omega
        rw [if_neg hfound, if_pos hfull]
        exact IH (bytes.length - (pos + scanChunkSize - scanOverlap)) (by omega)
          (pos + scanChunkSize - scanOverlap) rfl (by omega)
  exact fun pos hpos => main (bytes.length - pos) pos rfl hpos

/-- Soundness of the chunked scan: it answers `true` only when some marker
occurs in the file. -/
theorem scanLoop_sound (bytes : List Nat) :
    ∀ pos, scanLoop bytes pos = true →
      ∃ pat ∈ successMarkers, ∃ i, (bytes.drop i).take pat.length = pat := by
  have main : ∀ n pos, bytes.length - pos = n → scanLoop bytes pos = true →
      ∃ pat ∈ successMarkers, ∃ i, (bytes.drop i).take pat.length = pat := by
    intro n
    induction n using Nat.strong_induction_on with
    | _ n IH =>
      intro pos hn hrun
      rw [scanLoop] at hrun
      by_cases h0 : ((bytes.drop pos).take scanChunkSize).length = 0
      · rw [if_pos h0] at hrun
        exact absurd hrun (by simp)
      rw [if_neg h0] at hrun
      by_cases hfound :
          successMarkers.any (fun m => pyIn m ((bytes.drop pos).take scanChunkSize)) = true
      · rw [List.any_eq_true] at hfound
        obtain ⟨pat, hp, hin⟩ := hfound
        rw [pyIn_eq_true_iff] at hin
        obtain ⟨j, hj, hsub⟩ := hin
        refine ⟨pat, hp, pos + j, ?_⟩
        have hlen := congrArg List.length hsub
        simp [List.length_take, List.length_drop] at hlen
        rw [List.drop_take, List.drop_drop, List.take_take] at hsub
        have hchunklen : ((bytes.drop pos).take scanChunkSize).length =
            min scanChunkSize (bytes.length - pos) := by
          simp [List.length_take, List.length_drop]
        have hmin : min pat.length (scanChunkSize - j) = pat.length := by omega
        rw [hmin] at hsub
        exact hsub
      · rw [if_neg hfound] at hrun
        by_cases hfull : ((bytes.drop pos).take scanChunkSize).length = scanChunkSize
        · rw [if_pos hfull] at hrun
          have hchunklen : ((bytes.drop pos).take scanChunkSize).length =
              min scanChunkSize (bytes.length - pos) := by
            simp [List.length_take, List.length_drop]
          have hcs : scanChunkSize = 1048576 := rfl
          have hov : scanOverlap = 21 := rfl
          exact IH (bytes.length - (pos + scanChunkSize - scanOverlap)) (by omega)
            (pos + scanChunkSize - scanOverlap) rfl hrun
        · rw [if_neg hfull] at hrun
          exact absurd hrun (by simp)
  exact fun pos => main (bytes.length - pos) pos rfl

/-- The scan from offset 0 answers exactly substring containment of a
success marker. -/
theorem scanLoop_eq_marker_in (bytes : List Nat) :
    scanLoop bytes 0 = true ↔ ∃ pat ∈ successMarkers, pyIn pat bytes = true := by
  constructor
  · intro h
    obtain ⟨pat, hp, i, hsub⟩ := scanLoop_sound bytes 0 h
    obtain ⟨hL1, _⟩ := marker_length_bounds hp
    refine ⟨pat, hp, ?_⟩
    rw [pyIn_eq_true_iff]
    exact ⟨i, by have := occurrence_le_length hL1 hsub; omega, hsub⟩
  · rintro ⟨pat, hp, hin⟩
    rw [pyIn_eq_true_iff] at hin
    obtain ⟨i, _, hsub⟩ := hin
    exact scanLoop_complete bytes pat hp hsub 0 (Nat.zero_le _)

/-! ## Claim C7 - boundary-spanning marker detection -/

/-- C7: for every file whose bytes contain a success marker - at any
offset, in particular one straddling a 1 MB chunk boundary - the binary
fallback scanner of `verify_hdf_completion` detects the marker and
returns `True`: the fixed-size-chunk scan with an overlap window sized
to the longest marker misses no occurrence. -/
theorem c7_binary_scan_finds_every_marker (bytes pat : List Nat) (i : Nat)
    (hp : pat ∈ successMarkers) (hocc : (bytes.drop i).take pat.length = pat) :
    verify_hdf_completion (.readable bytes) = true :=
  scanLoop_complete bytes pat hp hocc 0 (Nat.zero_le _)

/-- Witness for C7 at a concrete file containing the marker at offset 3. -/
theorem c7_binary_scan_finds_every_marker_witness :
    verify_hdf_completion
      (.readable (asciiBytes ("xy Finished Successfully tail"))) = true :=
  c7_binary_scan_finds_every_marker (asciiBytes ("xy Finished Successfully tail"))
    (asciiBytes ("Finished Successfully")) 3 (by decide) (by decide)

/-! ## Claim C10 - absent or unreadable artifact is a clean failure -/

/-- C10: a path that does not name an existing regular file makes
`verify_hdf_completion` return `False` (the `os.path.isfile` guard), and
an existing but unreadable artifact also yields `False` (the `OSError`
from `open` is caught); the function is total, so no exception escapes
in either case. -/
theorem c10_verify_hdf_completion_missing_or_unreadable (e : FsEntry)
    (h : e.isRegularFile = false ∨ e = FsEntry.locked) :
    verify_hdf_completion e = false := by
  rcases h with h | h
  · cases e with
    | missing => rfl
    | locked => rfl
    | readable bytes => simp [FsEntry.isRegularFile] at h
  · rw [h]
    rfl

/-- Witness for C10 at the concrete absent path. -/
theorem c10_verify_hdf_completion_missing_or_unreadable_witness :
    FsEntry.missing.isRegularFile = false ∧
      verify_hdf_completion FsEntry.missing = false :=
  ⟨rfl, c10_verify_hdf_completion_missing_or_unreadable FsEntry.missing (Or.inl rfl)⟩

/-! ## Claim C2 - CLI-backend success is decided by the artifact alone

The claim also asserts that exit code 0 is necessary for success.  The
source decides `success = verify_hdf_completion(hdf_path)` and reads
`proc.returncode` only to compose the failure message, so a run that
exits nonzero but leaves a marker-bearing artifact is reported
successful; the counterexample below exhibits this. -/

/-- C2 counterexample: a normally-exiting CLI run with exit code 1 whose
output artifact contains a success marker is reported successful - the
exit code is not consulted - refuting "a process exit code of 0 is
necessary for success". -/
theorem c2_counterexample_nonzero_exit_reported_success :
    (1 : Int) ≠ 0 ∧
      (run_hecras_cli_normal_exit ("plan01") ("01") 1 ("")
        (.readable (asciiBytes ("hdr Finished Successfully data"))) 0).success = true := by
  refine ⟨by decide, ?_⟩
  show verify_hdf_completion (.readable (asciiBytes ("hdr Finished Successfully data"))) = true
  exact scanLoop_complete (asciiBytes ("hdr Finished Successfully data"))
    (asciiBytes ("Finished Successfully")) (by decide)
    (i := 4) (by decide) 0 (Nat.zero_le _)

/-- C2 (amended): for every CLI-backend run that exits normally, the
reported success is true iff the output `.p##.hdf` artifact exists, is
readable, and contains a known success marker; the process exit code
plays no part in the decision (it appears only in the failure message). -/
theorem c2_cli_success_iff_marker (plan_name plan_suffix : String) (returncode : Int)
    (stderrText : String) (hdfEntry : FsEntry) (elapsed : Rat) :
    (run_hecras_cli_normal_exit plan_name plan_suffix returncode stderrText
        hdfEntry elapsed).success = true ↔
      ∃ bytes, hdfEntry = FsEntry.readable bytes ∧
        ∃ pat ∈ successMarkers, pyIn pat bytes = true := by
  show verify_hdf_completion hdfEntry = true ↔ _
  cases hdfEntry with
  | missing => simp [verify_hdf_completion]
  | locked => simp [verify_hdf_completion]
  | readable bytes =>
    rw [verify_hdf_completion, scanLoop_eq_marker_in]
    constructor
    · rintro ⟨pat, hp, hin⟩
      exact ⟨bytes, rfl, pat, hp, hin⟩
    · rintro ⟨b, hb, pat, hp, hin⟩
      cases hb
      exact ⟨pat, hp, hin⟩

/-! ## Claim C8 - result-file naming convention -/

theorem lowerString_append (a b : String) :
    lowerString (a ++ b) = lowerString a ++ lowerString b := by
  cases a with
  | mk da =>
    cases b with
    | mk db =>
      show String.mk (List.map pyLowerChar (da ++ db)) = _
      rw [List.map_append]
      rfl

/-- C8: for every filename and every plan suffix `S` (a digit tag, hence
unchanged by lowercasing), `is_result_file` holds iff the name ends with
`.{ext}{S}` for an extension of the fixed set or `.{ext}{S}.hdf` for a
container extension; in particular with `S = "03"`, `project.p03.hdf`
matches while `project.p01` and `project.prj` do not. -/
theorem c8_is_result_file_convention :
    (∀ name S : String, lowerString S = S →
      (is_result_file name S = true ↔ spec_is_result_file name S)) ∧
    is_result_file ("project.p03.hdf") ("03") = true ∧
    is_result_file ("project.p01") ("03") = false ∧
    is_result_file ("project.prj") ("03") = false := by
  refine ⟨?_, by decide, by decide, by decide⟩
  intro name S hS
  have hdfpatt : ∀ ext ∈ (["p", "u", "g"] : List String),
      lowerString ("." ++ ext ++ S ++ ".hdf") = "." ++ ext ++ S ++ ".hdf" := by
    intro ext hext
    simp only [List.mem_cons, List.not_mem_nil, or_false] at hext
    rcases hext with h | h | h <;> subst h <;>
      rw [lowerString_append, lowerString_append, lowerString_append, hS] <;> rfl
  simp only [is_result_file, spec_is_result_file, Bool.or_eq_true, List.any_eq_true]
  constructor
  · rintro (⟨ext, hext, h⟩ | ⟨ext, hext, h⟩)
    · exact Or.inl ⟨ext, hext, h⟩
    · exact Or.inr ⟨ext, hext, by rw [hdfpatt ext hext]; exact h⟩
  · rintro (⟨ext, hext, h⟩ | ⟨ext, hext, h⟩)
    · exact Or.inl ⟨ext, hext, h⟩
    · exact Or.inr ⟨ext, hext, by rw [hdfpatt ext hext] at h; exact h⟩

/-- Witness for C8: the convention equivalence at a concrete
uppercase name and the digit suffix `03`. -/
theorem c8_is_result_file_convention_witness :
    is_result_file ("RESULTS.P03") ("03") = true ↔
      spec_is_result_file ("RESULTS.P03") ("03") :=
  c8_is_result_file_convention.1 ("RESULTS.P03") ("03") rfl

/-! ## Claim C3 - `compute_progress` never raises (code bug)

The claim (and the function's own docstring, "Returns 0.0 if any
timestamp cannot be parsed") promise `0.0` with no exception for
unparseable input.  But a string that matches the date regex while
denoting no valid calendar date - here day `99` - reaches the
`datetime()` constructor, which raises `ValueError`; nothing in
`_parse_hecras_datetime` or `compute_progress` catches it, so the
exception escapes to the caller instead of `0.0` being returned. -/

/-- C3: evaluating the embedded code at the failing input
`compute_progress("01Jan2024  00:00:00", "99JAN2024,0000",
"02JAN2024,0000")`: the start timestamp cannot be parsed (day 99), and
the call raises `ValueError` rather than returning `0.0`. -/
theorem c3_compute_progress_raises_on_day_99 :
    parse_hecras_datetime ("99JAN2024,0000") = Except.error PyError.valueError ∧
      compute_progress ("01Jan2024  00:00:00") ("99JAN2024,0000") ("02JAN2024,0000") =
        Except.error PyError.valueError := by
  constructor <;> rfl

/-! ## Claim C6 - the "2400" convention, groundwork -/

theorem digitCharTable_isDigit : ∀ k, k < 10 → isDigitChar (digitCharTable k) = true := by
  decide

theorem digitCharTable_toNat : ∀ k, k < 10 → (digitCharTable k).toNat - 48 = k := by
  decide

theorem digitCharTable_not_space : ∀ k, k < 10 →
    isSpaceChar (digitCharTable k) = false := by
  decide

theorem digitChar_isDigit (n : Nat) : isDigitChar (digitChar n) = true :=
  digitCharTable_isDigit (n % 10) (Nat.mod_lt _ (by norm_num))

theorem digitChar_toNat (n : Nat) : (digitChar n).toNat - 48 = n % 10 :=
  digitCharTable_toNat (n % 10) (Nat.mod_lt _ (by norm_num))

theorem digitChar_not_space (n : Nat) : isSpaceChar (digitChar n) = false :=
  digitCharTable_not_space (n % 10) (Nat.mod_lt _ (by norm_num))

theorem pyIntNat_pad2 (d : Nat) (h : d < 100) : pyIntNat (pad2 d) = d := by
  have h1 := digitChar_toNat (d / 10)
  have h2 := digitChar_toNat d
  simp only [pyIntNat, pad2, List.foldl_cons, List.foldl_nil]
  omega

theorem pyIntNat_pad4 (y : Nat) (h : y < 10000) : pyIntNat (pad4 y) = y := by
  have h1 := digitChar_toNat (y / 1000)
  have h2 := digitChar_toNat (y / 100)
  have h3 := digitChar_toNat (y / 10)
  have h4 := digitChar_toNat y
  simp only [pyIntNat, pad4, List.foldl_cons, List.foldl_nil]
  omega

theorem takeWhile_eq_nil_of_all_not {l : List Char}
    (h : ∀ c ∈ l, isSpaceChar c = false) : l.takeWhile isSpaceChar = [] := by
  cases l with
  | nil => rfl
  | cons c t => simp [List.takeWhile_cons, h c (List.mem_cons_self c t)]

/-- The matcher `matchBco` fails on any list whose tail past the 9 header characters
starts with no whitespace: the `\s+` of the pattern cannot match. -/
theorem matchBco_eq_none_of_no_space (l : List Char)
    (h : (l.drop 9).takeWhile isSpaceChar = []) : matchBco l = none := by
  rcases l with _ | ⟨a1, _ | ⟨a2, _ | ⟨a3, _ | ⟨a4, _ | ⟨a5, _ | ⟨a6, _ | ⟨a7, _ |
    ⟨a8, _ | ⟨a9, rest⟩⟩⟩⟩⟩⟩⟩⟩⟩ <;> try rfl
  simp only [List.drop_succ_cons, List.drop_zero] at h
  simp only [matchBco, h]
  split <;> rfl

/-- Searching with the `.bco` pattern fails on a whitespace-free string. -/
theorem searchBco_eq_none_of_no_space (l : List Char)
    (h : ∀ c ∈ l, isSpaceChar c = false) : searchList matchBco l = none := by
  induction l with
  | nil => rfl
  | cons c t IH =>
    have hmb : matchBco (c :: t) = none := by
      apply matchBco_eq_none_of_no_space
      apply takeWhile_eq_nil_of_all_not
      intro x hx
      exact h x (List.mem_of_mem_drop hx)
    rw [searchList, hmb]
    exact IH fun x hx => h x (List.mem_cons_of_mem c hx)

theorem daysInMonth_le_31 (y m : Nat) : daysInMonth y m ≤ 31 := by
  unfold daysInMonth
  split_ifs <;> omega

theorem addOneDay_eq_nextMidnight (y m d : Nat)
    (hmax : ¬(y = 9999 ∧ m = 12 ∧ d = 31)) :
    addOneDay ⟨y, m, d, 0, 0, 0⟩ = .ok (nextMidnight y m d) := by
  dsimp only [addOneDay, nextMidnight]
  rw [if_neg hmax]
  split_ifs <;> rfl

/-- Shared head of both canonical `2400` strings: each character of the
rendered `ddMMMyyyy` is free of whitespace when the month characters are. -/
theorem no_space_header (d y : Nat) (mc1 mc2 mc3 : Char)
    (hs1 : isSpaceChar mc1 = false) (hs2 : isSpaceChar mc2 = false)
    (hs3 : isSpaceChar mc3 = false) :
    ∀ c ∈ pad2 d ++ [mc1, mc2, mc3] ++ pad4 y, isSpaceChar c = false := by
  intro c hc
  simp only [pad2, pad4, List.cons_append, List.nil_append, List.mem_cons,
    List.not_mem_nil, or_false] at hc
  rcases hc with h | h | h | h | h | h | h | h | h <;> subst h <;>
    first
      | assumption
      | exact digitChar_not_space _

/-- Evaluation of `_parse_hecras_datetime` on the rendered plan-format
string `ddMMMyyyy,2400`: the `.bco` regex cannot match (no whitespace),
the plan regex matches at position 0, and the `2400` branch returns
midnight of the next day. -/
theorem parse_plan_2400_core (y m d : Nat) (mc1 mc2 mc3 : Char)
    (hw1 : isWordChar mc1 = true) (hw2 : isWordChar mc2 = true)
    (hw3 : isWordChar mc3 = true)
    (hs1 : isSpaceChar mc1 = false) (hs2 : isSpaceChar mc2 = false)
    (hs3 : isSpaceChar mc3 = false)
    (hlook : monthLookup (upperString [mc1, mc2, mc3]) = some m)
    (hy1 : 1 ≤ y) (hy2 : y ≤ 9999) (hm1 : 1 ≤ m) (hm2 : m ≤ 12)
    (hd1 : 1 ≤ d) (hd2 : d ≤ daysInMonth y m)
    (hmax : ¬(y = 9999 ∧ m = 12 ∧ d = 31)) :
    parse_hecras_datetime_chars
        (pad2 d ++ [mc1, mc2, mc3] ++ pad4 y ++ [',', '2', '4', '0', '0']) =
      .ok (some (nextMidnight y m d)) := by
  have hd100 : d < 100 := by have := daysInMonth_le_31 y m; omega
  have hy10000 : y < 10000 := by omega
  have hbco : searchList matchBco
      (pad2 d ++ [mc1, mc2, mc3] ++ pad4 y ++ [',', '2', '4', '0', '0']) = none := by
    apply searchBco_eq_none_of_no_space
    intro c hc
    rcases List.mem_append.1 hc with hc1 | hc1
    · exact no_space_header d y mc1 mc2 mc3 hs1 hs2 hs3 c hc1
    · fin_cases hc1 <;> rfl
  have hplan : matchPlan
      (pad2 d ++ [mc1, mc2, mc3] ++ pad4 y ++ [',', '2', '4', '0', '0']) =
      some ⟨pad2 d, [mc1, mc2, mc3], pad4 y, ['2', '4', '0', '0']⟩ := by
    have h2d : isDigitChar '2' = true := rfl
    have h4d : isDigitChar '4' = true := rfl
    have h0d : isDigitChar '0' = true := rfl
    simp only [pad2, pad4, List.cons_append, List.nil_append, matchPlan]
    simp [digitChar_isDigit, hw1, hw2, hw3, h2d, h4d, h0d]
  have hsearchplan : searchList matchPlan
      (pad2 d ++ [mc1, mc2, mc3] ++ pad4 y ++ [',', '2', '4', '0', '0']) =
      some ⟨pad2 d, [mc1, mc2, mc3], pad4 y, ['2', '4', '0', '0']⟩ := by
    have hcons : pad2 d ++ [mc1, mc2, mc3] ++ pad4 y ++ [',', '2', '4', '0', '0'] =
        digitChar (d / 10) :: (digitChar d :: ([mc1, mc2, mc3] ++ pad4 y ++
          [',', '2', '4', '0', '0'])) := by
      simp [pad2, pad4]
    rw [hcons, searchList, ← hcons, hplan]
  rw [parse_hecras_datetime_chars]
  have hne : (pad2 d ++ [mc1, mc2, mc3] ++ pad4 y ++
      [',', '2', '4', '0', '0']).isEmpty = false := by
    simp [pad2, List.isEmpty]
  rw [hne]
  simp only [Bool.false_eq_true, if_false, hbco, hsearchplan]
  rw [hlook]
  have h24 : pyIntNat (['2', '4', '0', '0'].take 2) = 24 := rfl
  rw [h24]
  simp only [if_pos rfl, pyIntNat_pad2 d hd100, pyIntNat_pad4 y hy10000]
  rw [mkPyDateTime,
    if_pos (⟨hy1, hy2, hm1, hm2, hd1, hd2, by omega, by omega, by omega⟩ :
      1 ≤ y ∧ y ≤ 9999 ∧ 1 ≤ m ∧ m ≤ 12 ∧ 1 ≤ d ∧ d ≤ daysInMonth y m ∧
        0 ≤ 23 ∧ 0 ≤ 59 ∧ 0 ≤ 59)]
  show (addOneDay ⟨y, m, d, 0, 0, 0⟩).bind (fun dt2 => .ok (some dt2)) = _
  rw [addOneDay_eq_nextMidnight y m d hmax]
  rfl

/-- Evaluation of `_parse_hecras_datetime` on the rendered `.bco`-format
string `ddMMMyyyy  24:00:00`: the `.bco` regex matches at position 0 and
the `24` hour selects the next-day branch. -/
theorem parse_bco_2400_core (y m d : Nat) (mc1 mc2 mc3 : Char)
    (hw1 : isWordChar mc1 = true) (hw2 : isWordChar mc2 = true)
    (hw3 : isWordChar mc3 = true)
    (hlook : monthLookup (upperString [mc1, mc2, mc3]) = some m)
    (hy1 : 1 ≤ y) (hy2 : y ≤ 9999) (hm1 : 1 ≤ m) (hm2 : m ≤ 12)
    (hd1 : 1 ≤ d) (hd2 : d ≤ daysInMonth y m)
    (hmax : ¬(y = 9999 ∧ m = 12 ∧ d = 31)) :
    parse_hecras_datetime_chars
        (pad2 d ++ [mc1, mc2, mc3] ++ pad4 y ++
          [' ', ' ', '2', '4', ':', '0', '0', ':', '0', '0']) =
      .ok (some (nextMidnight y m d)) := by
  have hd100 : d < 100 := by have := daysInMonth_le_31 y m; omega
  have hy10000 : y < 10000 := by omega
  have hbco : matchBco
      (pad2 d ++ [mc1, mc2, mc3] ++ pad4 y ++
        [' ', ' ', '2', '4', ':', '0', '0', ':', '0', '0']) =
      some ⟨pad2 d, [mc1, mc2, mc3], pad4 y, ['2', '4'], ['0', '0'], ['0', '0']⟩ := by
    have h2d : isDigitChar '2' = true := rfl
    have h4d : isDigitChar '4' = true := rfl
    have h0d : isDigitChar '0' = true := rfl
    have htw : List.takeWhile isSpaceChar
        [' ', ' ', '2', '4', ':', '0', '0', ':', '0', '0'] = [' ', ' '] := rfl
    have hdw : List.dropWhile isSpaceChar
        [' ', ' ', '2', '4', ':', '0', '0', ':', '0', '0'] =
        ['2', '4', ':', '0', '0', ':', '0', '0'] := rfl
    simp only [pad2, pad4, List.cons_append, List.nil_append, matchBco]
    rw [htw, hdw]
    simp [digitChar_isDigit, hw1, hw2, hw3, h2d, h4d, h0d]
  have hsearchbco : searchList matchBco
      (pad2 d ++ [mc1, mc2, mc3] ++ pad4 y ++
        [' ', ' ', '2', '4', ':', '0', '0', ':', '0', '0']) =
      some ⟨pad2 d, [mc1, mc2, mc3], pad4 y, ['2', '4'], ['0', '0'], ['0', '0']⟩ := by
    have hcons : pad2 d ++ [mc1, mc2, mc3] ++ pad4 y ++
        [' ', ' ', '2', '4', ':', '0', '0', ':', '0', '0'] =
        digitChar (d / 10) :: (digitChar d :: ([mc1, mc2, mc3] ++ pad4 y ++
          [' ', ' ', '2', '4', ':', '0', '0', ':', '0', '0'])) := by
      simp [pad2, pad4]
    rw [hcons, searchList, ← hcons, hbco]
  rw [parse_hecras_datetime_chars]
  have hne : (pad2 d ++ [mc1, mc2, mc3] ++ pad4 y ++
      [' ', ' ', '2', '4', ':', '0', '0', ':', '0', '0']).isEmpty = false := by
    simp [pad2, List.isEmpty]
  rw [hne]
  simp only [Bool.false_eq_true, if_false, hsearchbco]
  rw [hlook]
  have h24 : pyIntNat ['2', '4'] = 24 := rfl
  rw [h24]
  simp only [if_pos rfl, pyIntNat_pad2 d hd100, pyIntNat_pad4 y hy10000]
  have hsec : pyIntNat ['0', '0'] = 0 := rfl
  rw [hsec]
  rw [mkPyDateTime,
    if_pos (⟨hy1, hy2, hm1, hm2, hd1, hd2, by omega, by omega, by omega⟩ :
      1 ≤ y ∧ y ≤ 9999 ∧ 1 ≤ m ∧ m ≤ 12 ∧ 1 ≤ d ∧ d ≤ daysInMonth y m ∧
        0 ≤ 23 ∧ 0 ≤ 59 ∧ 0 ≤ 59)]
  show (addOneDay ⟨y, m, d, 0, 0, 0⟩).bind (fun dt2 => .ok (some dt2)) = _
  rw [addOneDay_eq_nextMidnight y m d hmax]
  rfl

/-! ## Claim C6 - the "2400" convention -/

/-- C6 counterexample: on the last representable day, `9999-12-31`, a
`"2400"` timestamp does not parse to midnight of the next day in either
format - `datetime(9999, 12, 31) + timedelta(days=1)` overflows
`datetime.max` and the parse raises `OverflowError` instead. -/
theorem c6_counterexample_overflow_on_max_date :
    parse_hecras_datetime (planStr2400 9999 12 31) =
        Except.error PyError.overflowError ∧
      parse_hecras_datetime (bcoStr2400 9999 12 31) =
        Except.error PyError.overflowError ∧
      planStr2400 9999 12 31 = "31DEC9999,2400" ∧
      bcoStr2400 9999 12 31 = "31DEC9999  24:00:00" := by
  refine ⟨rfl, rfl, rfl, rfl⟩

/-- C6 (amended): for every valid day `D = (y, m, d)` other than the
last representable one (`9999-12-31`, where the add-a-day step raises
`OverflowError`), a timestamp whose time-of-day field is `2400` on day
`D` parses to midnight of day `D + 1`, in both supported input formats:
the `,HHMM` plan format `ddMMMyyyy,2400` and the `HH:MM:SS` `.bco`
format `ddMMMyyyy  24:00:00`. -/
theorem c6_2400_parses_to_next_day_midnight (y m d : Nat) (hy1 : 1 ≤ y)
    (hy2 : y ≤ 9999) (hm1 : 1 ≤ m) (hm2 : m ≤ 12) (hd1 : 1 ≤ d)
    (hd2 : d ≤ daysInMonth y m) (hmax : ¬(y = 9999 ∧ m = 12 ∧ d = 31)) :
    parse_hecras_datetime (planStr2400 y m d) = .ok (some (nextMidnight y m d)) ∧
      parse_hecras_datetime (bcoStr2400 y m d) = .ok (some (nextMidnight y m d)) := by
  interval_cases m <;>
    · refine ⟨parse_plan_2400_core _ _ _ _ _ _ ?_ ?_ ?_ ?_ ?_ ?_ ?_ hy1 hy2 ?_ ?_
        hd1 hd2 hmax,
        parse_bco_2400_core _ _ _ _ _ _ ?_ ?_ ?_ ?_ hy1 hy2 ?_ ?_ hd1 hd2 hmax⟩ <;>
        first
          | rfl
          | omega

/-- Witness for C6 at the concrete leap day boundary `28FEB2024`. -/
theorem c6_2400_parses_to_next_day_midnight_witness :
    parse_hecras_datetime (planStr2400 2024 2 28) =
        .ok (some (nextMidnight 2024 2 28)) ∧
      parse_hecras_datetime (bcoStr2400 2024 2 28) =
        .ok (some (nextMidnight 2024 2 28)) :=
  c6_2400_parses_to_next_day_midnight 2024 2 28 (by norm_num) (by norm_num)
    (by norm_num) (by norm_num) (by norm_num) (by decide) (by decide)

/-! ## Claim C1 - batch aggregation in `complete_job`, groundwork -/

/-- With primary-key-unique ids, `find?` by id returns the member row. -/
theorem find?_id_eq_some_of_nodup {l : List JobRow} {j : JobRow} {jid : Nat}
    (hnd : (l.map JobRow.id).Nodup) (hj : j ∈ l) (hid : j.id = jid) :
    l.find? (fun r => r.id == jid) = some j := by
  induction l with
  | nil => cases hj
  | cons a t IH =>
    rw [List.map_cons, List.nodup_cons] at hnd
    rcases List.mem_cons.1 hj with h | h
    · subst h
      rw [List.find?_cons_of_pos _ (by simp [hid])]
    · have hane : ¬ (a.id == jid) = true := by
        simp only [beq_iff_eq]
        intro he
        exact hnd.1 (by rw [he, ← hid]; exact List.mem_map_of_mem _ h)
      rw [List.find?_cons_of_neg (p := fun r => r.id == jid) t hane]
      exact IH hnd.2 h

theorem isTerminalStatus_iff (s : String) :
    isTerminalStatus s = true ↔ s = "completed" ∨ s = "failed" := by
  simp [isTerminalStatus]

/-- The update written by `complete_job` keeps the row id. -/
theorem completeJobRowUpdate_id (success : Bool) (now : Nat) (elapsed : Rat)
    (err : Option String) (ec : Option Int) (hv : Option Bool) (j : JobRow) :
    (completeJobRowUpdate success now elapsed err ec hv j).id = j.id := rfl

theorem completeJobJobs_map_id (jobs : List JobRow) (job_id : Nat) (success : Bool)
    (now : Nat) (elapsed : Rat) (err : Option String) (ec : Option Int)
    (hv : Option Bool) :
    (completeJobJobs jobs job_id success now elapsed err ec hv).map JobRow.id =
      jobs.map JobRow.id := by
  unfold completeJobJobs
  rw [List.map_map]
  apply List.map_congr_left
  intro a _
  by_cases h : a.id = job_id <;> simp [h, completeJobRowUpdate_id]

theorem remaining_zero_iff (jobs2 : List JobRow) (b : Nat) :
    jobs2.countP (fun r => r.batch_id == b && !isTerminalStatus r.status) = 0 ↔
      ∀ r ∈ jobs2, r.batch_id = b → (r.status = "completed" ∨ r.status = "failed") := by
  rw [List.countP_eq_zero]
  constructor
  · intro h r hr hrb
    by_cases ht : isTerminalStatus r.status = true
    · exact (isTerminalStatus_iff _).1 ht
    · exact absurd (by simp [hrb, Bool.eq_false_iff.2 ht] :
        (r.batch_id == b && !isTerminalStatus r.status) = true) (h r hr)
  · intro h r hr hcontra
    simp only [Bool.and_eq_true, beq_iff_eq, Bool.not_eq_true'] at hcontra
    obtain ⟨hrb, hterm⟩ := hcontra
    rw [(isTerminalStatus_iff _).2 (h r hr hrb)] at hterm
    cases hterm

theorem failed_pos_iff (jobs2 : List JobRow) (b : Nat) :
    0 < jobs2.countP (fun r => r.batch_id == b && r.status == "failed") ↔
      ∃ r ∈ jobs2, r.batch_id = b ∧ r.status = "failed" := by
  rw [List.countP_pos_iff]
  simp [Bool.and_eq_true, beq_iff_eq]

/-! ## Claim C1 - batch aggregation in `complete_job` -/

/-- C1: after `complete_job` marks a child job terminal (the job row
update of `completeJobJobs`), the batch-status write it issues is
`completed` iff every child job of the batch is terminal and none
failed, `failed` iff every child is terminal and at least one failed,
and no write at all - the batch keeps its previous status - while any
child is non-terminal.  Ids are hypothesised unique (the table's
primary key). -/
theorem c1_complete_job_batch_aggregation
    (jobs : List JobRow) (batches : List BatchRow) (job_id : Nat) (success : Bool)
    (now : Nat) (elapsed : Rat) (err : Option String) (ec : Option Int)
    (hv : Option Bool) (b : Nat) (jobs2 : List JobRow)
    (hjobs2 : jobs2 = completeJobJobs jobs job_id success now elapsed err ec hv)
    (hnd : (jobs.map JobRow.id).Nodup)
    (hmem : ∃ j ∈ jobs, j.id = job_id ∧ j.batch_id = b) :
    (batchTerminalWrite jobs2 job_id = some (b, "completed") ↔
      (∀ r ∈ jobs2, r.batch_id = b → (r.status = "completed" ∨ r.status = "failed")) ∧
        ∀ r ∈ jobs2, r.batch_id = b → r.status ≠ "failed") ∧
    (batchTerminalWrite jobs2 job_id = some (b, "failed") ↔
      (∀ r ∈ jobs2, r.batch_id = b → (r.status = "completed" ∨ r.status = "failed")) ∧
        ∃ r ∈ jobs2, r.batch_id = b ∧ r.status = "failed") ∧
    ((∃ r ∈ jobs2, r.batch_id = b ∧ r.status ≠ "completed" ∧ r.status ≠ "failed") →
      batchTerminalWrite jobs2 job_id = none) ∧
    (batchTerminalWrite jobs2 job_id = none →
      (complete_job ⟨jobs, batches⟩ job_id success now elapsed err ec hv).batches =
        batches) := by
  obtain ⟨j, hj, hid, hb⟩ := hmem
  have hnd2 : (jobs2.map JobRow.id).Nodup := by
    rw [hjobs2, completeJobJobs_map_id]
    exact hnd
  have hj2mem : completeJobRowUpdate success now elapsed err ec hv j ∈ jobs2 := by
    rw [hjobs2]
    unfold completeJobJobs
    have heq : (fun r =>
        if r.id == job_id then completeJobRowUpdate success now elapsed err ec hv r
        else r) j = completeJobRowUpdate success now elapsed err ec hv j := by
      simp [hid]
    exact heq ▸ List.mem_map_of_mem _ hj
  have hfind : jobs2.find? (fun r => r.id == job_id) =
      some (completeJobRowUpdate success now elapsed err ec hv j) :=
    find?_id_eq_some_of_nodup hnd2 hj2mem hid
  have hbatch : (completeJobRowUpdate success now elapsed err ec hv j).batch_id = b := hb
  have hwrite : batchTerminalWrite jobs2 job_id =
      (if jobs2.countP (fun r => r.batch_id == b && !isTerminalStatus r.status) = 0 then
        some (b,
          if 0 < jobs2.countP (fun r => r.batch_id == b && r.status == "failed") then
            ("failed")
          else ("completed"))
      else none) := by
    unfold batchTerminalWrite
    simp only [hfind, hbatch]
  by_cases hrem :
      jobs2.countP (fun r => r.batch_id == b && !isTerminalStatus r.status) = 0
  · have hall := (remaining_zero_iff jobs2 b).1 hrem
    by_cases hfail :
        0 < jobs2.countP (fun r => r.batch_id == b && r.status == "failed")
    · have hex := (failed_pos_iff jobs2 b).1 hfail
      rw [hwrite, if_pos hrem, if_pos hfail]
      refine ⟨?_, ?_, ?_, ?_⟩
      · constructor
        · intro h
          simp at h
        · rintro ⟨_, hnone⟩
          obtain ⟨r, hr, hrb, hrf⟩ := hex
          exact absurd hrf (hnone r hr hrb)
      · exact ⟨fun _ => ⟨hall, hex⟩, fun _ => rfl⟩
      · rintro ⟨r, hr, hrb, hnc, hnf⟩
        rcases hall r hr hrb with h | h
        exacts [absurd h hnc, absurd h hnf]
      · intro h
        simp at h
    · have hnofail : ∀ r ∈ jobs2, r.batch_id = b → r.status ≠ "failed" := by
        intro r hr hrb hf
        exact hfail ((failed_pos_iff jobs2 b).2 ⟨r, hr, hrb, hf⟩)
      rw [hwrite, if_pos hrem, if_neg hfail]
      refine ⟨?_, ?_, ?_, ?_⟩
      · exact ⟨fun _ => ⟨hall, hnofail⟩, fun _ => rfl⟩
      · constructor
        · intro h
          simp at h
        · rintro ⟨_, r, hr, hrb, hrf⟩
          exact absurd hrf (hnofail r hr hrb)
      · rintro ⟨r, hr, hrb, hnc, hnf⟩
        rcases hall r hr hrb with h | h
        exacts [absurd h hnc, absurd h hnf]
      · intro h
        simp at h
  · have hnall : ¬ ∀ r ∈ jobs2, r.batch_id = b →
        (r.status = "completed" ∨ r.status = "failed") :=
      fun hall => hrem ((remaining_zero_iff jobs2 b).2 hall)
    rw [hwrite, if_neg hrem]
    refine ⟨?_, ?_, ?_, ?_⟩
    · constructor
      · intro h
        simp at h
      · rintro ⟨hall, _⟩
        exact absurd hall hnall
    · constructor
      · intro h
        simp at h
      · rintro ⟨hall, _⟩
        exact absurd hall hnall
    · intro _
      rfl
    · intro _
      unfold complete_job
      rw [← hjobs2]
      simp only [hwrite, if_neg hrem]

/-- Witness for C1: completing the last running job of a two-job batch
with `success = false` issues the batch write `failed`. -/
theorem c1_complete_job_batch_aggregation_witness :
    batchTerminalWrite
        (completeJobJobs [c1wJob1, c1wJob2] 2 false 7 3 (some ("boom")) (some 1)
          (some false)) 2 = some (10, "failed") :=
  (c1_complete_job_batch_aggregation [c1wJob1, c1wJob2] [] 2 false 7 3 (some ("boom"))
      (some 1) (some false) 10 _ rfl (by decide)
      ⟨c1wJob2, by decide, rfl, rfl⟩).2.1.2
    ⟨by decide,
      completeJobRowUpdate false 7 3 (some ("boom")) (some 1) (some false) c1wJob2,
      by decide, rfl, rfl⟩

/-! ## Claim C4 - `claim_job`, groundwork -/

theorem minId?_eq_none_iff (l : List Nat) : minId? l = none ↔ l = [] := by
  cases l with
  | nil => simp [minId?]
  | cons a t =>
    simp only [minId?, List.foldr_cons]
    cases h : t.foldr
        (fun a acc => match acc with | none => some a | some b => some (min a b))
        none <;> simp

theorem minId?_mem {l : List Nat} {i : Nat} (h : minId? l = some i) : i ∈ l := by
  induction l generalizing i with
  | nil => cases h
  | cons a t IH =>
    rw [minId?, List.foldr_cons] at h
    cases ht : t.foldr
        (fun a acc => match acc with | none => some a | some b => some (min a b))
        none with
    | none =>
      rw [ht] at h
      cases h
      exact List.mem_cons_self a t
    | some b =>
      rw [ht] at h
      cases h
      by_cases hab : a ≤ b
      · rw [Nat.min_def, if_pos hab]
        exact List.mem_cons_self a t
      · rw [Nat.min_def, if_neg hab]
        exact List.mem_cons_of_mem a (IH ht)

theorem minId?_le {l : List Nat} {i : Nat} (h : minId? l = some i) :
    ∀ x ∈ l, i ≤ x := by
  induction l generalizing i with
  | nil => cases h
  | cons a t IH =>
    intro x hx
    rw [minId?, List.foldr_cons] at h
    cases ht : t.foldr
        (fun a acc => match acc with | none => some a | some b => some (min a b))
        none with
    | none =>
      rw [ht] at h
      cases h
      rcases List.mem_cons.1 hx with hx | hx
      · omega
      · exact absurd ((minId?_eq_none_iff t).1 ht ▸ hx) (List.not_mem_nil x)
    | some b =>
      rw [ht] at h
      cases h
      rcases List.mem_cons.1 hx with hx | hx
      · omega
      · have := IH ht x hx
        omega

theorem minId?_eq_some_of {l : List Nat} {i : Nat} (h1 : i ∈ l)
    (h2 : ∀ x ∈ l, i ≤ x) : minId? l = some i := by
  cases hm : minId? l with
  | none =>
    rw [minId?_eq_none_iff] at hm
    exact absurd (hm ▸ h1) (List.not_mem_nil i)
  | some m =>
    have hmm := minId?_mem hm
    have h3 := minId?_le hm i h1
    have h4 := h2 m hmm
    rw [Nat.le_antisymm h3 h4]

/-! ## Claim C4 - `claim_job` -/

/-- C4: `claim_job(worker_id)` selects the oldest queued row (least id,
ids being insertion-ordered), rewrites exactly that row to status
`assigned` with `worker_id` and `assigned_at`, and returns its details
joined with the parent batch's project path; with no queued row it
returns `none` and leaves the state untouched, rather than raising.
Ids are hypothesised unique (primary key). -/
theorem c4_claim_job_oldest_queued (st : DbState) (workerId : String) (now : Nat)
    (hnd : (st.jobs.map JobRow.id).Nodup) :
    ((∀ r ∈ st.jobs, r.status ≠ "queued") →
      claim_job st workerId now = (st, none)) ∧
    (∀ j ∈ st.jobs, j.status = "queued" →
      (∀ r ∈ st.jobs, r.status = "queued" → j.id ≤ r.id) →
      claim_job st workerId now =
        ({ st with
            jobs := st.jobs.map fun r =>
              if r.id == j.id then
                { r with
                    status := "assigned"
                    worker_id := some workerId
                    assigned_at := some now }
              else r },
          some ⟨j.id, j.batch_id, j.plan_name, j.plan_suffix,
            projectPathOf st.batches j.batch_id⟩)) := by
  constructor
  · intro hnone
    have hfilter : st.jobs.filter (fun r => r.status == "queued") = [] := by
      rw [List.filter_eq_nil_iff]
      intro r hr
      simp [hnone r hr]
    unfold claim_job
    rw [hfilter]
    rfl
  · intro j hj hq hle
    have hmem : j.id ∈ (st.jobs.filter (fun r => r.status == "queued")).map JobRow.id :=
      List.mem_map_of_mem _ (List.mem_filter.2 ⟨hj, by simp [hq]⟩)
    have hminall : ∀ x ∈ (st.jobs.filter (fun r => r.status == "queued")).map JobRow.id,
        j.id ≤ x := by
      intro x hx
      obtain ⟨r, hrf, rfl⟩ := List.mem_map.1 hx
      obtain ⟨hrmem, hrq⟩ := List.mem_filter.1 hrf
      exact hle r hrmem (by simpa using hrq)
    have hmin : minId? ((st.jobs.filter (fun r => r.status == "queued")).map JobRow.id) =
        some j.id := minId?_eq_some_of hmem hminall
    have hfind : st.jobs.find? (fun r => r.id == j.id) = some j :=
      find?_id_eq_some_of_nodup hnd hj rfl
    unfold claim_job
    rw [hmin]
    dsimp only
    rw [hfind]

/-- Witness for C4: of two queued jobs the one with the least id is
claimed and rewritten to `assigned`. -/
theorem c4_claim_job_oldest_queued_witness :
    claim_job ⟨[c4wA, c4wB], [c4wBatch]⟩ ("w1") 99 =
      ({ jobs := [c4wA, c4wB].map fun r =>
           if r.id == c4wB.id then
             { r with
                 status := "assigned"
                 worker_id := some ("w1")
                 assigned_at := some 99 }
           else r
         batches := [c4wBatch] },
        some ⟨c4wB.id, c4wB.batch_id, c4wB.plan_name, c4wB.plan_suffix,
          projectPathOf [c4wBatch] c4wB.batch_id⟩) :=
  (c4_claim_job_oldest_queued ⟨[c4wA, c4wB], [c4wBatch]⟩ ("w1") 99 (by decide)).2
    c4wB (by decide) rfl (by decide)

/-! ## Claim C5 - `StorageError` propagation from `submit_batch` -/

/-- C5: when the transaction cannot commit, `submit_batch` fails by
surfacing that storage error to its caller unchanged - the body catches
nothing - and never retries internally: its statement trace carries
exactly one commit attempt, as its final statement, whatever the
outcome. -/
theorem c5_submit_batch_surfaces_storage_error (newBatchId : Nat) (e : StorageError)
    (commitResult : Except StorageError Unit) (pp pt sb : String)
    (jobs : List (String × String)) (hfail : commitResult = .error e) :
    (submit_batch newBatchId commitResult pp pt jobs sb).1 = .error e ∧
      (submit_batch newBatchId commitResult pp pt jobs sb).2.countP
        (fun s => s == SqlStmt.commitTx) = 1 ∧
      (submit_batch newBatchId commitResult pp pt jobs sb).2.getLast? =
        some SqlStmt.commitTx := by
  refine ⟨by rw [submit_batch, hfail]; rfl, ?_, ?_⟩
  · show (SqlStmt.insertBatch pp pt sb jobs.length ::
        (jobs.map (fun jb => SqlStmt.insertJob newBatchId jb.1 jb.2) ++
          [SqlStmt.commitTx])).countP (fun s => s == SqlStmt.commitTx) = 1
    rw [List.countP_cons_of_neg _ _ (by simp), List.countP_append, List.countP_map]
    have hjobs : jobs.countP
        ((fun s => s == SqlStmt.commitTx) ∘
          fun jb => SqlStmt.insertJob newBatchId jb.1 jb.2) = 0 := by
      rw [List.countP_eq_zero]
      intro a _
      simp [Function.comp]
    rw [hjobs]
    rfl
  · show (SqlStmt.insertBatch pp pt sb jobs.length ::
        (jobs.map (fun jb => SqlStmt.insertJob newBatchId jb.1 jb.2) ++
          [SqlStmt.commitTx])).getLast? = some SqlStmt.commitTx
    rw [List.getLast?_cons, List.getLast?_append]
    rfl

/-- Witness for C5 at a concrete lost-connection commit failure. -/
theorem c5_submit_batch_surfaces_storage_error_witness :
    (submit_batch 7 (Except.error ⟨"connection lost"⟩) ("C:\\p.prj") ("T")
        [("plan1", "01")] ("user")).1 = Except.error ⟨"connection lost"⟩ ∧
      (submit_batch 7 (Except.error ⟨"connection lost"⟩) ("C:\\p.prj") ("T")
        [("plan1", "01")] ("user")).2.countP (fun s => s == SqlStmt.commitTx) = 1 ∧
      (submit_batch 7 (Except.error ⟨"connection lost"⟩) ("C:\\p.prj") ("T")
        [("plan1", "01")] ("user")).2.getLast? = some SqlStmt.commitTx :=
  c5_submit_batch_surfaces_storage_error 7 ⟨"connection lost"⟩
    (Except.error ⟨"connection lost"⟩) ("C:\\p.prj") ("T") ("user") [("plan1", "01")] rfl

/-! ## Claim C9 - terrain hash sensitivity -/

theorem terrainHashInput_cons (f : String × List Nat)
    (t : List (String × List Nat)) :
    terrainHashInput (f :: t) =
      asciiBytes (f.1 ++ ":" ++ toString f.2.length ++ ":") ++ f.2.take 4096 ++
        terrainHashInput t := rfl

/-- C9 counterexample: mutating one byte of one file - at offset 4096,
which only full-content hashing would see - does not change the terrain
hash, because `compute_terrain_hash` reads only each file's name, size
and first 4096 bytes. -/
theorem c9_counterexample_mutation_beyond_4k_same_hash :
    c9dir1 ≠ c9dir2 ∧
      c9dir1 = [("big.tif", c9base ++ [1])] ∧
      c9dir2 = [("big.tif", c9base ++ [2])] ∧
      c9base.length = 4096 ∧
      compute_terrain_hash (some c9dir1) = compute_terrain_hash (some c9dir2) := by
  have hbase : c9base.length = 4096 := by
    unfold c9base
    exact List.length_replicate 4096 0
  refine ⟨?_, rfl, rfl, hbase, ?_⟩
  · intro h
    unfold c9dir1 c9dir2 at h
    have h2 := (Prod.ext_iff.1 (List.cons.inj h).1).2
    have h3 := List.append_cancel_left h2
    simp at h3
  · have h1 : (c9base ++ [1]).take 4096 = c9base := List.take_left' hbase
    have h2 : (c9base ++ [2]).take 4096 = c9base := List.take_left' hbase
    have hl1 : (c9base ++ [1]).length = 4097 := by
      rw [List.length_append, hbase]
      rfl
    have hl2 : (c9base ++ [2]).length = 4097 := by
      rw [List.length_append, hbase]
      rfl
    have hinput : terrainHashInput c9dir1 = terrainHashInput c9dir2 := by
      unfold c9dir1 c9dir2
      rw [terrainHashInput_cons, terrainHashInput_cons]
      dsimp only
      rw [h1, h2, hl1, hl2]
    show (sha256Hex (terrainHashInput c9dir1)).take 24 =
      (sha256Hex (terrainHashInput c9dir2)).take 24
    rw [hinput]

/-- C9 (amended): the terrain hash is deterministic, and it depends on
exactly the data the source feeds to SHA-256 - each file's relative
name, size and first 4096 bytes: two directories agreeing on those hash
identically (so a size-preserving mutation past the first 4 KB never
changes the hash), while mutating one byte within some file's first
4096 bytes changes the hashed byte stream. -/
theorem c9_terrain_hash_depends_on_first_4k :
    (∀ t : Option (List (String × List Nat)),
      compute_terrain_hash t = compute_terrain_hash t) ∧
    (∀ f1 f2 : List (String × List Nat),
      f1.map (fun f => (f.1, f.2.length, f.2.take 4096)) =
        f2.map (fun f => (f.1, f.2.length, f.2.take 4096)) →
      compute_terrain_hash (some f1) = compute_terrain_hash (some f2)) ∧
    (∀ (fs : List (String × List Nat)) (k : Nat) (nm : String) (b1 b2 : List Nat)
      (i : Nat), fs.get? k = some (nm, b1) → b2.length = b1.length → i < 4096 →
      b1.get? i ≠ b2.get? i →
      terrainHashInput (fs.set k (nm, b2)) ≠ terrainHashInput fs) := by
  refine ⟨fun _ => rfl, ?_, ?_⟩
  · intro f1 f2 hobs
    have hinput : terrainHashInput f1 = terrainHashInput f2 := by
      induction f1 generalizing f2 with
      | nil =>
        cases f2 with
        | nil => rfl
        | cons b t => cases hobs
      | cons a t IH =>
        cases f2 with
        | nil => cases hobs
        | cons b t2 =>
          rw [List.map_cons, List.map_cons] at hobs
          obtain ⟨hhead, htail⟩ := List.cons.inj hobs
          simp only [Prod.mk.injEq] at hhead
          obtain ⟨h1, h2, h3⟩ := hhead
          rw [terrainHashInput_cons, terrainHashInput_cons, h1, h2, h3, IH t2 htail]
    show (sha256Hex (terrainHashInput f1)).take 24 =
      (sha256Hex (terrainHashInput f2)).take 24
    rw [hinput]
  · intro fs
    induction fs with
    | nil =>
      intro k nm b1 b2 i hget
      simp at hget
    | cons a t IH =>
      intro k nm b1 b2 i hget hlen hi hne
      cases k with
      | zero =>
        rw [List.get?_cons_zero] at hget
        injection hget with ha
        subst ha
        rw [List.set_cons_zero, terrainHashInput_cons, terrainHashInput_cons]
        intro heq
        dsimp only at heq
        rw [hlen, List.append_assoc, List.append_assoc] at heq
        have heq2 := List.append_cancel_left heq
        have htake : b2.take 4096 = b1.take 4096 :=
          (List.append_inj heq2 (by simp [hlen])).1
        apply hne
        have hg := congrArg (fun l => l.get? i) htake
        simp only at hg
        rw [List.get?_take hi, List.get?_take hi] at hg
        exact hg.symm
      | succ k2 =>
        rw [List.get?_cons_succ] at hget
        rw [List.set_cons_succ, terrainHashInput_cons, terrainHashInput_cons]
        intro heq
        exact IH k2 nm b1 b2 i hget hlen hi hne (List.append_cancel_left heq)

/-- Witness for C9: an unchanged directory hashes identically, and a
one-byte mutation inside the first 4 KB changes the hashed stream. -/
theorem c9_terrain_hash_depends_on_first_4k_witness :
    compute_terrain_hash (some [("a", [5, 6])]) =
        compute_terrain_hash (some [("a", [5, 6])]) ∧
      terrainHashInput ([("a", [5, 6])].set 0 ("a", [7, 6])) ≠
        terrainHashInput [("a", [5, 6])] :=
  ⟨c9_terrain_hash_depends_on_first_4k.2.1 [("a", [5, 6])] [("a", [5, 6])] rfl,
    c9_terrain_hash_depends_on_first_4k.2.2 [("a", [5, 6])] 0 ("a") [5, 6] [7, 6] 0
      rfl rfl (by norm_num) (by decide)⟩

end HecrasRunner
